import Mathlib

/-!
Verification of the document-scanner detection engine
(`src/utils/scannerUtils.ts`): corner normalization, confidence scoring,
IOU-based duplicate suppression, result ordering, and orientation
correction.  JavaScript numbers are modelled as exact rationals (`ℚ`);
decimal literals of the source are written as the equal fractions
(`0.9 = 9/10`, `0.2 = 1/5`, `1.5 = 3/2`, `0.5 = 1/2`).  Functions that
`throw` are modelled with `Except`.
-/

namespace Scanner

/-- `Point {x, y}` from the source's type definitions. -/
structure Point where
  x : ℚ
  y : ℚ
deriving DecidableEq, Repr

instance : Inhabited Point := ⟨⟨0, 0⟩⟩

/-- JS `Math.min(...l)` over a (nonempty) spread of a list; `0` on `[]`
(the source only applies it to nonempty arrays). -/
def minList (l : List ℚ) : ℚ :=
  match l with
  | [] => 0
  | x :: xs => xs.foldl min x

/-- JS `Math.max(...l)` over a (nonempty) spread of a list; `0` on `[]`. -/
def maxList (l : List ℚ) : ℚ :=
  match l with
  | [] => 0
  | x :: xs => xs.foldl max x

/-- JS `l.indexOf(Math.min(...l))`: first index attaining the minimum. -/
def firstIdxOfMin (l : List ℚ) : ℕ := l.indexOf (minList l)

/-- JS `l.indexOf(Math.max(...l))`: first index attaining the maximum. -/
def firstIdxOfMax (l : List ℚ) : ℕ := l.indexOf (maxList l)

/-- `pts[ (pts.map f).indexOf(Math.min(... pts.map f)) ]` — the source's
idiom for selecting the first point minimizing `f`. -/
def argFirstMin (pts : List Point) (f : Point → ℚ) : Point :=
  pts.getD (firstIdxOfMin (pts.map f)) default

/-- `pts[ (pts.map f).indexOf(Math.max(... pts.map f)) ]` — first point
maximizing `f`. -/
def argFirstMax (pts : List Point) (f : Point → ℚ) : Point :=
  pts.getD (firstIdxOfMax (pts.map f)) default

/-- The sum `p.x + p.y` used for the TL/BR corners. -/
def psum (p : Point) : ℚ := p.x + p.y

/-- The difference `p.x - p.y` used for the TR/BL corners. -/
def pdiff (p : Point) : ℚ := p.x - p.y

/-- `sortPointsClockwise` (scannerUtils.ts lines 329–345): throws unless
given exactly 4 points, then returns `[pts[tlIdx], pts[trIdx], pts[brIdx],
pts[blIdx]]` where `tlIdx` is the first index of the minimal sum, `brIdx`
of the maximal sum, `trIdx` of the maximal difference and `blIdx` of the
minimal difference. -/
def sortPointsClockwise (pts : List Point) : Except String (List Point) :=
  if pts.length ≠ 4 then
    .error "sortPointsClockwise requires exactly 4 points"
  else
    .ok [argFirstMin pts psum, argFirstMax pts pdiff,
         argFirstMax pts psum, argFirstMin pts pdiff]

/-- `getExtremeCorners` (scannerUtils.ts lines 351–370): 4 points are
returned unchanged, fewer than 4 throw, and more than 4 are reduced to
the four extreme points `[minSum, maxDiff, maxSum, minDiff]`. -/
def getExtremeCorners (pts : List Point) : Except String (List Point) :=
  if pts.length = 4 then
    .ok pts
  else if pts.length < 4 then
    .error "getExtremeCorners requires at least 4 points"
  else
    .ok [argFirstMin pts psum, argFirstMax pts pdiff,
         argFirstMax pts psum, argFirstMin pts pdiff]

/-- Axis-aligned bounding box `{minX, maxX, minY, maxY}` as computed in
`calculateIOU`. -/
structure Box where
  minX : ℚ
  maxX : ℚ
  minY : ℚ
  maxY : ℚ
deriving DecidableEq, Repr

/-- The bounding box of a corner list (`Math.min/max` over the mapped
coordinates). -/
def bboxOf (corners : List Point) : Box :=
  { minX := minList (corners.map (·.x))
    maxX := maxList (corners.map (·.x))
    minY := minList (corners.map (·.y))
    maxY := maxList (corners.map (·.y)) }

/-- `interWidth = Math.max(0, min(maxX, maxX') - max(minX, minX'))`. -/
def interWidthOf (c1 c2 : List Point) : ℚ :=
  max 0 (min (bboxOf c1).maxX (bboxOf c2).maxX - max (bboxOf c1).minX (bboxOf c2).minX)

/-- `interHeight = Math.max(0, min(maxY, maxY') - max(minY, minY'))`. -/
def interHeightOf (c1 c2 : List Point) : ℚ :=
  max 0 (min (bboxOf c1).maxY (bboxOf c2).maxY - max (bboxOf c1).minY (bboxOf c2).minY)

/-- `interArea = interWidth * interHeight`. -/
def interAreaOf (c1 c2 : List Point) : ℚ :=
  interWidthOf c1 c2 * interHeightOf c1 c2

/-- `area = (maxX - minX) * (maxY - minY)` of one bounding box. -/
def bareaOf (c : List Point) : ℚ :=
  ((bboxOf c).maxX - (bboxOf c).minX) * ((bboxOf c).maxY - (bboxOf c).minY)

/-- `unionArea = area1 + area2 - interArea`. -/
def unionAreaOf (c1 c2 : List Point) : ℚ :=
  bareaOf c1 + bareaOf c2 - interAreaOf c1 c2

/-- `calculateIOU` (scannerUtils.ts lines 379–413). -/
def calculateIOU (corners1 corners2 : List Point) : ℚ :=
  if corners1.length ≠ 4 ∨ corners2.length ≠ 4 then 0
  else if unionAreaOf corners1 corners2 = 0 then 0
  else interAreaOf corners1 corners2 / unionAreaOf corners1 corners2

/-- Separation of two closed axis-aligned bounding boxes: strictly to the
side of each other on at least one axis. -/
def boxesDisjoint (c1 c2 : List Point) : Prop :=
  (bboxOf c1).maxX < (bboxOf c2).minX ∨ (bboxOf c2).maxX < (bboxOf c1).minX ∨
  (bboxOf c1).maxY < (bboxOf c2).minY ∨ (bboxOf c2).maxY < (bboxOf c1).minY

instance (c1 c2 : List Point) : Decidable (boxesDisjoint c1 c2) := by
  unfold boxesDisjoint; infer_instance

/-- `ScannedDoc` from the source's type definitions.  The `blob` and
`dataUrl` fields are opaque encoded-image payloads that no claim touches;
they are omitted.  JS string ids are modelled as `ℕ`. -/
structure ScannedDoc where
  id : ℕ
  confidence : ℚ
  corners : List Point
deriving DecidableEq, Repr

instance : Inhabited ScannedDoc := ⟨⟨0, 0, []⟩⟩

/-- `removed.add(i)` on the JS `Set` of ids (idempotent insertion). -/
def addId (removed : List ℕ) (i : ℕ) : List ℕ :=
  if i ∈ removed then removed else i :: removed

/-- The inner `for (const other of sorted)` loop of `filterDuplicatesByIOU`
(scannerUtils.ts lines 440–450): mark every other document whose IOU with
`doc` reaches the threshold as removed. -/
def innerMark (thr : ℚ) (doc : ScannedDoc) :
    List ScannedDoc → List ℕ → List ℕ
  | [], removed => removed
  | other :: rest, removed =>
    if other.id = doc.id ∨ other.id ∈ removed then
      innerMark thr doc rest removed
    else if thr ≤ calculateIOU doc.corners other.corners then
      innerMark thr doc rest (addId removed other.id)
    else
      innerMark thr doc rest removed

/-- The outer `for (const doc of sorted)` loop of `filterDuplicatesByIOU`
(scannerUtils.ts lines 432–451): skip removed docs, keep the rest, and
mark their high-IOU neighbours (drawn from the full `sorted` list). -/
def nmsGo (thr : ℚ) (sorted : List ScannedDoc) :
    List ScannedDoc → List ℕ → List ScannedDoc
  | [], _ => []
  | doc :: rest, removed =>
    if doc.id ∈ removed then
      nmsGo thr sorted rest removed
    else
      doc :: nmsGo thr sorted rest (innerMark thr doc sorted removed)

/-- The comparator `(a, b) => b.confidence - a.confidence` of the NMS
pre-sort: `a` may precede `b` iff `b.confidence ≤ a.confidence`. -/
def confDescR (a b : ScannedDoc) : Prop := b.confidence ≤ a.confidence

instance : DecidableRel confDescR :=
  fun a b => inferInstanceAs (Decidable (b.confidence ≤ a.confidence))

instance : IsTotal ScannedDoc confDescR :=
  ⟨fun a b => le_total b.confidence a.confidence⟩

instance : IsTrans ScannedDoc confDescR :=
  ⟨fun _ _ _ h1 h2 => le_trans h2 h1⟩

/-- `filterDuplicatesByIOU` (scannerUtils.ts lines 422–454).  JS
`Array.prototype.sort` is a stable comparator sort, modelled by
`List.insertionSort`. -/
def filterDuplicatesByIOU (docs : List ScannedDoc) (thr : ℚ) : List ScannedDoc :=
  if docs.length ≤ 1 then docs
  else
    let sorted := List.insertionSort confDescR docs
    nmsGo thr sorted sorted []

/-- `a.corners[0].y + a.corners[0].x` from the final sort comparator
(scannerUtils.ts lines 297–298); the corner lists there always hold the 4
sorted corners, so index 0 is in range. -/
def cornerPos (d : ScannedDoc) : ℚ := d.corners.headI.y + d.corners.headI.x

/-- The final sort comparator (scannerUtils.ts lines 291–300): confidence
descending first, then position ascending.  `a` may precede `b` iff the
comparator value is nonpositive. -/
def docOrder (a b : ScannedDoc) : Prop :=
  b.confidence < a.confidence ∨
    (a.confidence = b.confidence ∧ cornerPos a ≤ cornerPos b)

instance : DecidableRel docOrder := by
  intro a b; unfold docOrder; infer_instance

instance : IsTotal ScannedDoc docOrder :=
  ⟨fun a b => by
    unfold docOrder
    rcases lt_trichotomy a.confidence b.confidence with h | h | h
    · exact Or.inr (Or.inl h)
    · rcases le_total (cornerPos a) (cornerPos b) with hp | hp
      · exact Or.inl (Or.inr ⟨h, hp⟩)
      · exact Or.inr (Or.inr ⟨h.symm, hp⟩)
    · exact Or.inl (Or.inl h)⟩

instance : IsTrans ScannedDoc docOrder :=
  ⟨fun a b c h1 h2 => by
    unfold docOrder at h1 h2 ⊢
    rcases h1 with h1 | ⟨h1e, h1p⟩
    · rcases h2 with h2 | ⟨h2e, _⟩
      · exact Or.inl (lt_trans h2 h1)
      · exact Or.inl (h2e ▸ h1)
    · rcases h2 with h2 | ⟨h2e, h2p⟩
      · exact Or.inl (h1e.symm ▸ h2)
      · exact Or.inr ⟨h1e.trans h2e, le_trans h1p h2p⟩⟩

/-- Step 13 of `scanDocument`: the final stable sort of the filtered
documents. -/
def sortFinalDocs (docs : List ScannedDoc) : List ScannedDoc :=
  List.insertionSort docOrder docs

/-- Steps 12–13 of `scanDocument` (scannerUtils.ts lines 287–302): the
pipeline stages applied to the per-contour results `foundDocs` before the
promise resolves. -/
def finalizeDocs (found : List ScannedDoc) : List ScannedDoc :=
  sortFinalDocs (filterDuplicatesByIOU found (1/2))

/-- The confidence computation of step 8 of `scanDocument`
(scannerUtils.ts lines 218–241), as a function of the approximated
polygon's vertex count, its contour area, and its bounding-box width and
height. -/
def computeConfidence (nVertices : ℕ) (area w h : ℚ) : ℚ :=
  let rectArea := w * h
  let solidity := if 0 < rectArea then area / rectArea else 0
  let aspectRatio := if 0 < h then w / h else 0
  let c1 : ℚ := 100
  let c2 := if 4 < nVertices then c1 - 10 else c1
  let c3 := if solidity < 9/10 then
      c2 - max 0 ((⌊(9/10 - solidity) * 100⌋ : ℤ) : ℚ)
    else c2
  let c4 := if aspectRatio < 1/5 ∨ 5 < aspectRatio then c3 - 25 else c3
  max 0 (min 100 ((round c4 : ℤ) : ℚ))

/-- The retention test `confidence > 40` guarding the `foundDocs.push`
(scannerUtils.ts line 244). -/
def retainCandidate (confidence : ℚ) : Bool := 40 < confidence

/-- The rotation decision of `autoRotateImage` (scannerUtils.ts lines
582–583): `ratio = verticalEdges > 0 ? horizontalEdges / verticalEdges : 1`
and rotate iff `ratio > 1.5`. -/
def shouldRotate (horizontalEdges verticalEdges : ℕ) : Bool :=
  let ratio : ℚ :=
    if 0 < verticalEdges then (horizontalEdges : ℚ) / (verticalEdges : ℚ) else 1
  (3/2 : ℚ) < ratio

/-- `autoRotateImage` (scannerUtils.ts lines 539–597).  The pixel-level
edge counting is an OpenCV primitive; its outcome — the pair of sampled
horizontal/vertical edge counts, or a thrown exception caught by the
`try/catch` — is the `edgeAnalysis` argument.  On an exception the source
image is returned unchanged; otherwise the image is rotated 90° clockwise
exactly when `shouldRotate` fires. -/
def autoRotateImage {Img : Type} (rotate90CW : Img → Img)
    (edgeAnalysis : Except String (ℕ × ℕ)) (src : Img) : Img :=
  match edgeAnalysis with
  | .error _ => src
  | .ok (horizontalEdges, verticalEdges) =>
    if shouldRotate horizontalEdges verticalEdges then rotate90CW src else src

/-! ### Concrete inputs used by witnesses and counterexamples -/

/-- A 4-point axis-aligned square. -/
def pts4c : List Point := [⟨0,0⟩, ⟨2,0⟩, ⟨2,2⟩, ⟨0,2⟩]

/-- A 5-vertex polygon whose min-diff and max-diff corners differ. -/
def pts5c : List Point := [⟨0,0⟩, ⟨2,0⟩, ⟨2,2⟩, ⟨0,2⟩, ⟨1,3⟩]

/-- A 5-vertex polygon where the min-sum and max-diff extremes coincide
in the single vertex `(5, -100)`. -/
def pts5cd : List Point := [⟨0,0⟩, ⟨10,0⟩, ⟨10,10⟩, ⟨0,10⟩, ⟨5,-100⟩]

/-- A degenerate quad: 4 collinear points with a zero-area bounding box. -/
def degQuad : List Point := [⟨0,0⟩, ⟨1,0⟩, ⟨2,0⟩, ⟨3,0⟩]

/-- A 10×10 square quad. -/
def sq10 : List Point := [⟨0,0⟩, ⟨10,0⟩, ⟨10,10⟩, ⟨0,10⟩]

/-- A 4×4 square quad far away from `sq10`. -/
def far4 : List Point := [⟨100,100⟩, ⟨104,100⟩, ⟨104,104⟩, ⟨100,104⟩]

/-- Two detections with the same id on the same square: the duplicate-id
blind spot of the NMS inner loop. -/
def dupDocA : ScannedDoc := ⟨0, 50, sq10⟩

/-- Second same-id detection (lower confidence). -/
def dupDocB : ScannedDoc := ⟨0, 40, sq10⟩

/-- A well-formed detection, id 1, confidence 50. -/
def demoDocA : ScannedDoc := ⟨1, 50, sq10⟩

/-- A second well-formed detection, id 2, confidence 45, far from
`demoDocA`. -/
def demoDocB : ScannedDoc := ⟨2, 45, far4⟩

/-! ### Facts about the `Math.min` / `Math.max` folds -/

theorem foldl_min_le_acc : ∀ (xs : List ℚ) (a : ℚ), xs.foldl min a ≤ a
  | [], a => le_refl a
  | x :: xs, a => le_trans (foldl_min_le_acc xs (min a x)) (min_le_left a x)

theorem foldl_min_le_mem : ∀ (xs : List ℚ) (a x : ℚ), x ∈ xs → xs.foldl min a ≤ x
  | y :: xs, a, x, hx => by
    rcases List.mem_cons.1 hx with h | h
    · subst h
      exact le_trans (foldl_min_le_acc xs (min a x)) (min_le_right a x)
    · exact foldl_min_le_mem xs (min a y) x h

theorem foldl_min_mem : ∀ (xs : List ℚ) (a : ℚ), xs.foldl min a = a ∨ xs.foldl min a ∈ xs
  | [], _ => Or.inl rfl
  | x :: xs, a => by
    rw [List.foldl_cons]
    rcases foldl_min_mem xs (min a x) with h | h
    · rcases min_choice a x with h' | h'
      · exact Or.inl (by rw [h, h'])
      · exact Or.inr (by rw [h, h']; exact List.mem_cons_self x xs)
    · exact Or.inr (List.mem_cons_of_mem x h)

theorem le_foldl_max_acc : ∀ (xs : List ℚ) (a : ℚ), a ≤ xs.foldl max a
  | [], a => le_refl a
  | x :: xs, a => le_trans (le_max_left a x) (le_foldl_max_acc xs (max a x))

theorem mem_le_foldl_max : ∀ (xs : List ℚ) (a x : ℚ), x ∈ xs → x ≤ xs.foldl max a
  | y :: xs, a, x, hx => by
    rcases List.mem_cons.1 hx with h | h
    · subst h
      exact le_trans (le_max_right a x) (le_foldl_max_acc xs (max a x))
    · exact mem_le_foldl_max xs (max a y) x h

theorem foldl_max_mem : ∀ (xs : List ℚ) (a : ℚ), xs.foldl max a = a ∨ xs.foldl max a ∈ xs
  | [], _ => Or.inl rfl
  | x :: xs, a => by
    rw [List.foldl_cons]
    rcases foldl_max_mem xs (max a x) with h | h
    · rcases max_choice a x with h' | h'
      · exact Or.inl (by rw [h, h'])
      · exact Or.inr (by rw [h, h']; exact List.mem_cons_self x xs)
    · exact Or.inr (List.mem_cons_of_mem x h)

theorem minList_le {l : List ℚ} {x : ℚ} (hx : x ∈ l) : minList l ≤ x := by
  cases l with
  | nil => cases hx
  | cons y ys =>
    rcases List.mem_cons.1 hx with h | h
    · subst h; exact foldl_min_le_acc ys x
    · exact foldl_min_le_mem ys y x h

theorem minList_mem {l : List ℚ} (h : l ≠ []) : minList l ∈ l := by
  cases l with
  | nil => exact absurd rfl h
  | cons y ys =>
    show ys.foldl min y ∈ y :: ys
    rcases foldl_min_mem ys y with h' | h'
    · rw [h']; exact List.mem_cons_self y ys
    · exact List.mem_cons_of_mem y h'

theorem le_maxList {l : List ℚ} {x : ℚ} (hx : x ∈ l) : x ≤ maxList l := by
  cases l with
  | nil => cases hx
  | cons y ys =>
    rcases List.mem_cons.1 hx with h | h
    · subst h; exact le_foldl_max_acc ys x
    · exact mem_le_foldl_max ys y x h

theorem maxList_mem {l : List ℚ} (h : l ≠ []) : maxList l ∈ l := by
  cases l with
  | nil => exact absurd rfl h
  | cons y ys =>
    show ys.foldl max y ∈ y :: ys
    rcases foldl_max_mem ys y with h' | h'
    · rw [h']; exact List.mem_cons_self y ys
    · exact List.mem_cons_of_mem y h'

theorem minList_le_maxList {l : List ℚ} (h : l ≠ []) : minList l ≤ maxList l :=
  minList_le (maxList_mem h)

/-! ### The `indexOf`-of-extremum selection idiom -/

theorem argFirstMin_eq (pts : List Point) (f : Point → ℚ) (h : pts ≠ []) :
    argFirstMin pts f ∈ pts ∧ f (argFirstMin pts f) = minList (pts.map f) := by
  have hm : minList (pts.map f) ∈ pts.map f :=
    minList_mem (by simpa using h)
  have hidx : (pts.map f).indexOf (minList (pts.map f)) < (pts.map f).length :=
    List.indexOf_lt_length.2 hm
  have hidx' : (pts.map f).indexOf (minList (pts.map f)) < pts.length := by
    simpa using hidx
  rw [argFirstMin, firstIdxOfMin, List.getD_eq_getElem _ _ hidx']
  refine ⟨List.getElem_mem _, ?_⟩
  have h1 : (pts.map f)[(pts.map f).indexOf (minList (pts.map f))] = minList (pts.map f) :=
    List.getElem_indexOf hidx
  rw [List.getElem_map] at h1
  exact h1

theorem argFirstMax_eq (pts : List Point) (f : Point → ℚ) (h : pts ≠ []) :
    argFirstMax pts f ∈ pts ∧ f (argFirstMax pts f) = maxList (pts.map f) := by
  have hm : maxList (pts.map f) ∈ pts.map f :=
    maxList_mem (by simpa using h)
  have hidx : (pts.map f).indexOf (maxList (pts.map f)) < (pts.map f).length :=
    List.indexOf_lt_length.2 hm
  have hidx' : (pts.map f).indexOf (maxList (pts.map f)) < pts.length := by
    simpa using hidx
  rw [argFirstMax, firstIdxOfMax, List.getD_eq_getElem _ _ hidx']
  refine ⟨List.getElem_mem _, ?_⟩
  have h1 : (pts.map f)[(pts.map f).indexOf (maxList (pts.map f))] = maxList (pts.map f) :=
    List.getElem_indexOf hidx
  rw [List.getElem_map] at h1
  exact h1

theorem argFirstMin_mem (pts : List Point) (f : Point → ℚ) (h : pts ≠ []) :
    argFirstMin pts f ∈ pts := (argFirstMin_eq pts f h).1

theorem argFirstMax_mem (pts : List Point) (f : Point → ℚ) (h : pts ≠ []) :
    argFirstMax pts f ∈ pts := (argFirstMax_eq pts f h).1

theorem argFirstMin_le (pts : List Point) (f : Point → ℚ) (h : pts ≠ []) :
    ∀ q ∈ pts, f (argFirstMin pts f) ≤ f q := by
  intro q hq
  rw [(argFirstMin_eq pts f h).2]
  exact minList_le (List.mem_map_of_mem f hq)

theorem le_argFirstMax (pts : List Point) (f : Point → ℚ) (h : pts ≠ []) :
    ∀ q ∈ pts, f q ≤ f (argFirstMax pts f) := by
  intro q hq
  rw [(argFirstMax_eq pts f h).2]
  exact le_maxList (List.mem_map_of_mem f hq)

/-! ### C7 — `sortPointsClockwise` extreme sums -/

/-- **C7** (confirmed): for every list of 4 distinct points,
`sortPointsClockwise` returns a list `[TL, TR, BR, BL]` in which
`TL.x + TL.y` is at most the coordinate sum of every returned point and
`BR.x + BR.y` is at least the coordinate sum of every returned point. -/
theorem sortPointsClockwise_extreme_sums (pts : List Point)
    (h4 : pts.length = 4) (_hnd : pts.Nodup) :
    sortPointsClockwise pts =
      .ok [argFirstMin pts psum, argFirstMax pts pdiff,
           argFirstMax pts psum, argFirstMin pts pdiff] ∧
    ∀ q ∈ [argFirstMin pts psum, argFirstMax pts pdiff,
           argFirstMax pts psum, argFirstMin pts pdiff],
      psum (argFirstMin pts psum) ≤ psum q ∧ psum q ≤ psum (argFirstMax pts psum) := by
  have hne : pts ≠ [] := by
    intro h; rw [h] at h4; exact absurd h4 (by norm_num)
  refine ⟨by rw [sortPointsClockwise, if_neg (by omega)], ?_⟩
  intro q hq
  have hqm : q ∈ pts := by
    simp only [List.mem_cons, List.not_mem_nil, or_false] at hq
    rcases hq with h | h | h | h
    · rw [h]; exact argFirstMin_mem pts psum hne
    · rw [h]; exact argFirstMax_mem pts pdiff hne
    · rw [h]; exact argFirstMax_mem pts psum hne
    · rw [h]; exact argFirstMin_mem pts pdiff hne
  exact ⟨argFirstMin_le pts psum hne q hqm, le_argFirstMax pts psum hne q hqm⟩

/-- Witness for C7 on a concrete square with 4 distinct vertices. -/
theorem sortPointsClockwise_extreme_sums_witness :
    sortPointsClockwise pts4c =
      .ok [argFirstMin pts4c psum, argFirstMax pts4c pdiff,
           argFirstMax pts4c psum, argFirstMin pts4c pdiff] ∧
    psum (argFirstMin pts4c psum) ≤ psum (argFirstMax pts4c psum) := by
  have h := sortPointsClockwise_extreme_sums pts4c (by norm_num [pts4c])
    (by norm_num [pts4c, List.nodup_cons, Point.mk.injEq])
  exact ⟨h.1, (h.2 (argFirstMax pts4c psum) (by simp)).1⟩

/-! ### C1 — corner reduction to the four extremes -/

/-- **C1** counterexample: the claim reads the reduced quad as
`[minSum, minDiff, maxSum, maxDiff]` (calling the min-diff point the
top-right and the max-diff point the bottom-left).  On the 5-vertex
polygon `pts5c` the code instead puts the max-diff point `(2,0)` second
and the min-diff point `(0,2)` fourth. -/
theorem getExtremeCorners_claim_counterexample :
    getExtremeCorners pts5c = .ok [⟨0,0⟩, ⟨2,0⟩, ⟨2,2⟩, ⟨0,2⟩] ∧
    argFirstMin pts5c pdiff = ⟨0,2⟩ ∧ argFirstMax pts5c pdiff = ⟨2,0⟩ ∧
    getExtremeCorners pts5c ≠
      .ok [argFirstMin pts5c psum, argFirstMin pts5c pdiff,
           argFirstMax pts5c psum, argFirstMax pts5c pdiff] := by
  norm_num [pts5c, getExtremeCorners, argFirstMin, argFirstMax, firstIdxOfMin,
    firstIdxOfMax, minList, maxList, psum, pdiff, min_def, max_def, List.indexOf,
    List.findIdx, List.findIdx.go, cond_eq_if, beq_iff_eq, List.getD, Point.mk.injEq]

/-- **C1** (amended): for every raw polygon of 5 to 8 vertices,
`getExtremeCorners` reduces it to exactly the 4 points given by: the
point minimizing `x+y` (top-left), the point **maximizing** `x−y`
(top-right), the point maximizing `x+y` (bottom-right), and the point
**minimizing** `x−y` (bottom-left); a polygon of exactly 4 vertices is
used directly. -/
theorem getExtremeCorners_extremes :
    (∀ pts : List Point, 5 ≤ pts.length → pts.length ≤ 8 →
      getExtremeCorners pts =
        .ok [argFirstMin pts psum, argFirstMax pts pdiff,
             argFirstMax pts psum, argFirstMin pts pdiff] ∧
      (argFirstMin pts psum ∈ pts ∧ ∀ q ∈ pts, psum (argFirstMin pts psum) ≤ psum q) ∧
      (argFirstMax pts pdiff ∈ pts ∧ ∀ q ∈ pts, pdiff q ≤ pdiff (argFirstMax pts pdiff)) ∧
      (argFirstMax pts psum ∈ pts ∧ ∀ q ∈ pts, psum q ≤ psum (argFirstMax pts psum)) ∧
      (argFirstMin pts pdiff ∈ pts ∧ ∀ q ∈ pts, pdiff (argFirstMin pts pdiff) ≤ pdiff q)) ∧
    (∀ pts : List Point, pts.length = 4 → getExtremeCorners pts = .ok pts) := by
  constructor
  · intro pts h5 h8
    have hne : pts ≠ [] := by
      intro h; rw [h] at h5; exact absurd h5 (by norm_num)
    refine ⟨?_, ⟨argFirstMin_mem pts psum hne, argFirstMin_le pts psum hne⟩,
      ⟨argFirstMax_mem pts pdiff hne, le_argFirstMax pts pdiff hne⟩,
      ⟨argFirstMax_mem pts psum hne, le_argFirstMax pts psum hne⟩,
      ⟨argFirstMin_mem pts pdiff hne, argFirstMin_le pts pdiff hne⟩⟩
    rw [getExtremeCorners, if_neg (by omega), if_neg (by omega)]
  · intro pts h4
    rw [getExtremeCorners, if_pos h4]

/-- Witness for C1: both branches at concrete inputs. -/
theorem getExtremeCorners_extremes_witness :
    getExtremeCorners pts5c =
      .ok [argFirstMin pts5c psum, argFirstMax pts5c pdiff,
           argFirstMax pts5c psum, argFirstMin pts5c pdiff] ∧
    argFirstMin pts5c psum ∈ pts5c ∧
    getExtremeCorners pts4c = .ok pts4c := by
  have h := getExtremeCorners_extremes
  exact ⟨(h.1 pts5c (by norm_num [pts5c]) (by norm_num [pts5c])).1,
    (h.1 pts5c (by norm_num [pts5c]) (by norm_num [pts5c])).2.1.1,
    h.2 pts4c (by norm_num [pts4c])⟩

/-! ### C8 — corner reduction returns points of the input -/

/-- **C8** counterexample: on the 5-point `pts5cd` the returned list
repeats the extreme vertex `(5,-100)` (it is both the min-sum and the
max-diff point), so the set of returned points has only 3 elements — the
output does not form a 4-point subset of the input. -/
theorem getExtremeCorners_subset_counterexample :
    getExtremeCorners pts5cd = .ok [⟨5,-100⟩, ⟨5,-100⟩, ⟨10,10⟩, ⟨0,10⟩] ∧
    ([⟨5,-100⟩, ⟨5,-100⟩, ⟨10,10⟩, ⟨0,10⟩] : List Point).dedup.length = 3 := by
  constructor
  · norm_num [pts5cd, getExtremeCorners, argFirstMin, argFirstMax, firstIdxOfMin,
      firstIdxOfMax, minList, maxList, psum, pdiff, min_def, max_def, List.indexOf,
      List.findIdx, List.findIdx.go, cond_eq_if, beq_iff_eq, List.getD, Point.mk.injEq]
  · norm_num [List.dedup_cons_of_mem, List.dedup_cons_of_not_mem, Point.mk.injEq]

/-- **C8** (amended): `getExtremeCorners` applied to a list of exactly 4
points returns the input list itself (hence a set-equal permutation);
applied to a list of N > 4 points it returns a list of 4 points, each an
element of the input (the four extreme points need not be pairwise
distinct, so the subset they form may have fewer than 4 elements). -/
theorem getExtremeCorners_subset :
    (∀ pts : List Point, pts.length = 4 → getExtremeCorners pts = .ok pts) ∧
    (∀ pts : List Point, 4 < pts.length →
      getExtremeCorners pts =
        .ok [argFirstMin pts psum, argFirstMax pts pdiff,
             argFirstMax pts psum, argFirstMin pts pdiff] ∧
      ([argFirstMin pts psum, argFirstMax pts pdiff,
        argFirstMax pts psum, argFirstMin pts pdiff] : List Point).length = 4 ∧
      ∀ p ∈ [argFirstMin pts psum, argFirstMax pts pdiff,
             argFirstMax pts psum, argFirstMin pts pdiff], p ∈ pts) := by
  constructor
  · intro pts h4
    rw [getExtremeCorners, if_pos h4]
  · intro pts h5
    have hne : pts ≠ [] := by
      intro h; rw [h] at h5; exact absurd h5 (by norm_num)
    refine ⟨by rw [getExtremeCorners, if_neg (by omega), if_neg (by omega)], rfl, ?_⟩
    intro p hp
    simp only [List.mem_cons, List.not_mem_nil, or_false] at hp
    rcases hp with h | h | h | h
    · rw [h]; exact argFirstMin_mem pts psum hne
    · rw [h]; exact argFirstMax_mem pts pdiff hne
    · rw [h]; exact argFirstMax_mem pts psum hne
    · rw [h]; exact argFirstMin_mem pts pdiff hne

/-- Witness for C8 at concrete inputs. -/
theorem getExtremeCorners_subset_witness :
    getExtremeCorners pts4c = .ok pts4c ∧
    argFirstMax pts5c psum ∈ pts5c := by
  have h := getExtremeCorners_subset
  refine ⟨h.1 pts4c (by norm_num [pts4c]), ?_⟩
  have h2 := (h.2 pts5c (by norm_num [pts5c])).2.2
  exact h2 (argFirstMax pts5c psum) (by simp)

/-! ### Facts about the IOU bounding-box arithmetic -/

theorem bbox_minX_le_maxX {c : List Point} (h : c ≠ []) :
    (bboxOf c).minX ≤ (bboxOf c).maxX := by
  have h' : c.map (·.x) ≠ [] := by simpa using h
  exact minList_le_maxList h'

theorem bbox_minY_le_maxY {c : List Point} (h : c ≠ []) :
    (bboxOf c).minY ≤ (bboxOf c).maxY := by
  have h' : c.map (·.y) ≠ [] := by simpa using h
  exact minList_le_maxList h'

theorem bareaOf_nonneg {c : List Point} (h : c ≠ []) : 0 ≤ bareaOf c :=
  mul_nonneg (sub_nonneg.2 (bbox_minX_le_maxX h)) (sub_nonneg.2 (bbox_minY_le_maxY h))

theorem interWidthOf_nonneg (c1 c2 : List Point) : 0 ≤ interWidthOf c1 c2 :=
  le_max_left 0 _

theorem interHeightOf_nonneg (c1 c2 : List Point) : 0 ≤ interHeightOf c1 c2 :=
  le_max_left 0 _

theorem interAreaOf_nonneg (c1 c2 : List Point) : 0 ≤ interAreaOf c1 c2 :=
  mul_nonneg (interWidthOf_nonneg c1 c2) (interHeightOf_nonneg c1 c2)

theorem interWidthOf_le_left {c1 : List Point} (c2 : List Point) (h : c1 ≠ []) :
    interWidthOf c1 c2 ≤ (bboxOf c1).maxX - (bboxOf c1).minX :=
  max_le (sub_nonneg.2 (bbox_minX_le_maxX h))
    (sub_le_sub (min_le_left _ _) (le_max_left _ _))

theorem interWidthOf_le_right (c1 : List Point) {c2 : List Point} (h : c2 ≠ []) :
    interWidthOf c1 c2 ≤ (bboxOf c2).maxX - (bboxOf c2).minX :=
  max_le (sub_nonneg.2 (bbox_minX_le_maxX h))
    (sub_le_sub (min_le_right _ _) (le_max_right _ _))

theorem interHeightOf_le_left {c1 : List Point} (c2 : List Point) (h : c1 ≠ []) :
    interHeightOf c1 c2 ≤ (bboxOf c1).maxY - (bboxOf c1).minY :=
  max_le (sub_nonneg.2 (bbox_minY_le_maxY h))
    (sub_le_sub (min_le_left _ _) (le_max_left _ _))

theorem interHeightOf_le_right (c1 : List Point) {c2 : List Point} (h : c2 ≠ []) :
    interHeightOf c1 c2 ≤ (bboxOf c2).maxY - (bboxOf c2).minY :=
  max_le (sub_nonneg.2 (bbox_minY_le_maxY h))
    (sub_le_sub (min_le_right _ _) (le_max_right _ _))

theorem interAreaOf_le_left {c1 : List Point} (c2 : List Point) (h : c1 ≠ []) :
    interAreaOf c1 c2 ≤ bareaOf c1 :=
  mul_le_mul (interWidthOf_le_left c2 h) (interHeightOf_le_left c2 h)
    (interHeightOf_nonneg c1 c2) (sub_nonneg.2 (bbox_minX_le_maxX h))

theorem interAreaOf_le_right (c1 : List Point) {c2 : List Point} (h : c2 ≠ []) :
    interAreaOf c1 c2 ≤ bareaOf c2 :=
  mul_le_mul (interWidthOf_le_right c1 h) (interHeightOf_le_right c1 h)
    (interHeightOf_nonneg c1 c2) (sub_nonneg.2 (bbox_minX_le_maxX h))

theorem interAreaOf_le_unionAreaOf {c1 c2 : List Point} (h1 : c1 ≠ []) (h2 : c2 ≠ []) :
    interAreaOf c1 c2 ≤ unionAreaOf c1 c2 := by
  have ha := interAreaOf_le_left c2 h1
  have hb := interAreaOf_le_right c1 h2
  unfold unionAreaOf
  linarith

theorem interWidthOf_comm (c1 c2 : List Point) :
    interWidthOf c1 c2 = interWidthOf c2 c1 := by
  unfold interWidthOf
  rw [min_comm ((bboxOf c1).maxX), max_comm ((bboxOf c1).minX)]

theorem interHeightOf_comm (c1 c2 : List Point) :
    interHeightOf c1 c2 = interHeightOf c2 c1 := by
  unfold interHeightOf
  rw [min_comm ((bboxOf c1).maxY), max_comm ((bboxOf c1).minY)]

theorem interAreaOf_comm (c1 c2 : List Point) :
    interAreaOf c1 c2 = interAreaOf c2 c1 := by
  unfold interAreaOf
  rw [interWidthOf_comm, interHeightOf_comm]

theorem unionAreaOf_comm (c1 c2 : List Point) :
    unionAreaOf c1 c2 = unionAreaOf c2 c1 := by
  unfold unionAreaOf
  rw [interAreaOf_comm, add_comm]

theorem calculateIOU_comm (c1 c2 : List Point) :
    calculateIOU c1 c2 = calculateIOU c2 c1 := by
  unfold calculateIOU
  by_cases hg : c1.length ≠ 4 ∨ c2.length ≠ 4
  · rw [if_pos hg, if_pos (Or.symm hg)]
  · have hg2 : ¬(c2.length ≠ 4 ∨ c1.length ≠ 4) := fun h => hg (Or.symm h)
    rw [if_neg hg, if_neg hg2, unionAreaOf_comm c1 c2, interAreaOf_comm c1 c2]

theorem interAreaOf_self {A : List Point} (h : A ≠ []) :
    interAreaOf A A = bareaOf A := by
  unfold interAreaOf interWidthOf interHeightOf bareaOf
  rw [min_self, min_self, max_self, max_self,
    max_eq_right (sub_nonneg.2 (bbox_minX_le_maxX h)),
    max_eq_right (sub_nonneg.2 (bbox_minY_le_maxY h))]

theorem calculateIOU_eq_zero_of_interAreaOf_eq_zero {c1 c2 : List Point}
    (h : interAreaOf c1 c2 = 0) : calculateIOU c1 c2 = 0 := by
  unfold calculateIOU
  split_ifs with hg hu
  · rfl
  · rfl
  · rw [h, zero_div]

theorem interAreaOf_eq_zero_of_disjoint {c1 c2 : List Point}
    (h : boxesDisjoint c1 c2) : interAreaOf c1 c2 = 0 := by
  rcases h with h | h | h | h
  · have : interWidthOf c1 c2 = 0 := by
      apply max_eq_left
      have : min (bboxOf c1).maxX (bboxOf c2).maxX ≤ max (bboxOf c1).minX (bboxOf c2).minX :=
        le_trans (min_le_left _ _) (le_trans (le_of_lt h) (le_max_right _ _))
      linarith
    rw [interAreaOf, this, zero_mul]
  · have : interWidthOf c1 c2 = 0 := by
      apply max_eq_left
      have : min (bboxOf c1).maxX (bboxOf c2).maxX ≤ max (bboxOf c1).minX (bboxOf c2).minX :=
        le_trans (min_le_right _ _) (le_trans (le_of_lt h) (le_max_left _ _))
      linarith
    rw [interAreaOf, this, zero_mul]
  · have : interHeightOf c1 c2 = 0 := by
      apply max_eq_left
      have : min (bboxOf c1).maxY (bboxOf c2).maxY ≤ max (bboxOf c1).minY (bboxOf c2).minY :=
        le_trans (min_le_left _ _) (le_trans (le_of_lt h) (le_max_right _ _))
      linarith
    rw [interAreaOf, this, mul_zero]
  · have : interHeightOf c1 c2 = 0 := by
      apply max_eq_left
      have : min (bboxOf c1).maxY (bboxOf c2).maxY ≤ max (bboxOf c1).minY (bboxOf c2).minY :=
        le_trans (min_le_right _ _) (le_trans (le_of_lt h) (le_max_left _ _))
      linarith
    rw [interAreaOf, this, mul_zero]

/-! ### C5 — IOU algebra -/

/-- **C5** counterexample: the claim asserts `IOU(A,A) = 1` for *every*
quad, but on the degenerate 4-point quad `degQuad` (collinear points,
zero-area bounding box) the union area is `0`, so the zero-guard returns
`0`, not `1`. -/
theorem calculateIOU_refl_counterexample :
    degQuad.length = 4 ∧ calculateIOU degQuad degQuad ≠ 1 := by
  constructor
  · norm_num [degQuad]
  · norm_num [degQuad, calculateIOU, unionAreaOf, interAreaOf, interWidthOf,
      interHeightOf, bareaOf, bboxOf, minList, maxList, min_def, max_def]

/-- **C5** (amended): `IOU(A,A) = 1` for every quad `A` whose bounding box
has positive area (for a zero-area bounding box, `IOU(A,A) = 0`);
`IOU(A,B) = 0` whenever the two bounding boxes are disjoint; and
`IOU(A,B) = IOU(B,A)` for all `A`, `B`. -/
theorem calculateIOU_algebra :
    (∀ A : List Point, A.length = 4 → 0 < bareaOf A → calculateIOU A A = 1) ∧
    (∀ A B : List Point, boxesDisjoint A B → calculateIOU A B = 0) ∧
    (∀ A B : List Point, calculateIOU A B = calculateIOU B A) := by
  refine ⟨?_, ?_, calculateIOU_comm⟩
  · intro A h4 hpos
    have hne : A ≠ [] := by
      intro h; rw [h] at h4; exact absurd h4 (by norm_num)
    have hunion : unionAreaOf A A = bareaOf A := by
      rw [unionAreaOf, interAreaOf_self hne]; ring
    rw [calculateIOU, if_neg (by omega), if_neg (by rw [hunion]; exact ne_of_gt hpos),
      hunion, interAreaOf_self hne, div_self (ne_of_gt hpos)]
  · intro A B h
    exact calculateIOU_eq_zero_of_interAreaOf_eq_zero (interAreaOf_eq_zero_of_disjoint h)

/-- Witness for C5 on concrete quads. -/
theorem calculateIOU_algebra_witness :
    calculateIOU sq10 sq10 = 1 ∧ calculateIOU sq10 far4 = 0 := by
  have h := calculateIOU_algebra
  refine ⟨h.1 sq10 (by norm_num [sq10]) ?_, h.2.1 sq10 far4 ?_⟩
  · norm_num [bareaOf, bboxOf, sq10, minList, maxList, min_def, max_def]
  · norm_num [boxesDisjoint, bboxOf, sq10, far4, minList, maxList, min_def, max_def]

/-! ### C10 — IOU totality and bounds -/

/-- **C10** (confirmed): `calculateIOU` is total with values in `[0,1]`:
it returns `0` whenever either argument does not contain exactly 4 points
or the union area is `0` (so the division never divides by zero), and
otherwise the intersection area is at most the union area, bounding the
quotient by 1. -/
theorem calculateIOU_bounds :
    (∀ c1 c2 : List Point, 0 ≤ calculateIOU c1 c2 ∧ calculateIOU c1 c2 ≤ 1) ∧
    (∀ c1 c2 : List Point, c1.length ≠ 4 ∨ c2.length ≠ 4 → calculateIOU c1 c2 = 0) ∧
    (∀ c1 c2 : List Point, unionAreaOf c1 c2 = 0 → calculateIOU c1 c2 = 0) := by
  refine ⟨?_, ?_, ?_⟩
  · intro c1 c2
    unfold calculateIOU
    split_ifs with hg hu
    · norm_num
    · norm_num
    · push_neg at hg
      have h1 : c1 ≠ [] := by
        intro h; rw [h] at hg; exact absurd hg.1 (by norm_num)
      have h2 : c2 ≠ [] := by
        intro h; rw [h] at hg; exact absurd hg.2 (by norm_num)
      have hle := interAreaOf_le_unionAreaOf h1 h2
      have hpos : 0 < unionAreaOf c1 c2 :=
        lt_of_le_of_ne (le_trans (interAreaOf_nonneg c1 c2) hle) (Ne.symm hu)
      exact ⟨div_nonneg (interAreaOf_nonneg c1 c2) (le_of_lt hpos),
        (div_le_one hpos).2 hle⟩
  · intro c1 c2 h
    rw [calculateIOU, if_pos h]
  · intro c1 c2 h
    by_cases hg : c1.length ≠ 4 ∨ c2.length ≠ 4
    · rw [calculateIOU, if_pos hg]
    · rw [calculateIOU, if_neg hg, if_pos h]

/-- Witness for C10 at concrete inputs. -/
theorem calculateIOU_bounds_witness :
    (0 ≤ calculateIOU sq10 far4 ∧ calculateIOU sq10 far4 ≤ 1) ∧
    calculateIOU [] sq10 = 0 ∧
    calculateIOU degQuad degQuad = 0 := by
  have h := calculateIOU_bounds
  refine ⟨h.1 sq10 far4, h.2.1 [] sq10 (Or.inl (by norm_num)), h.2.2 degQuad degQuad ?_⟩
  norm_num [unionAreaOf, interAreaOf, interWidthOf, interHeightOf, bareaOf, bboxOf,
    degQuad, minList, maxList, min_def, max_def]

/-! ### C3 — the confidence formula -/

theorem clamp_round_int (q : ℚ) (z : ℤ) (hq : q = (z : ℚ)) :
    max 0 (min 100 ((round q : ℤ) : ℚ)) = max 0 (min 100 q) := by
  rw [hq, round_intCast]

/-- **C3** (confirmed): for every accepted polygon with contour area `A`,
bounding-box width `w` and height `h` with `w·h > 0`, the confidence
equals 100, minus 10 if the polygon has more than 4 vertices, minus
`⌊(0.9 − A/(w·h))·100⌋` if the solidity `A/(w·h)` is below 0.9, minus 25
if `w/h` lies outside `[0.2, 5]`, clamped to `[0, 100]`. -/
theorem computeConfidence_formula (nV : ℕ) (area w h : ℚ)
    (_hw : 0 ≤ w) (hh : 0 ≤ h) (hwh : 0 < w * h) :
    computeConfidence nV area w h =
      max 0 (min 100 ((100 : ℚ) - (if 4 < nV then (10:ℚ) else 0)
        - (if area / (w * h) < 9/10 then
            ((⌊(9/10 - area / (w * h)) * 100⌋ : ℤ) : ℚ) else 0)
        - (if w / h < 1/5 ∨ 5 < w / h then (25:ℚ) else 0))) := by
  have hh0 : 0 < h := by
    rcases lt_or_eq_of_le hh with h0 | h0
    · exact h0
    · exfalso; rw [← h0, mul_zero] at hwh; exact lt_irrefl 0 hwh
  have hfl : area / (w * h) < 9/10 →
      (0:ℚ) ≤ ((⌊(9/10 - area / (w * h)) * 100⌋ : ℤ) : ℚ) := by
    intro hs
    have h0 : (0:ℤ) ≤ ⌊(9/10 - area / (w * h)) * 100⌋ :=
      Int.floor_nonneg.2 (mul_nonneg (by linarith) (by norm_num))
    exact_mod_cast h0
  simp only [computeConfidence, if_pos hwh, if_pos hh0]
  split_ifs with ha hs hv1 hv2 hs2 hv3 hv4
  · rw [max_eq_right (hfl hs),
      clamp_round_int _ (100 - 10 - ⌊(9/10 - area / (w * h)) * 100⌋ - 25)
        (by push_cast; ring)]
  · rw [max_eq_right (hfl hs),
      clamp_round_int _ (100 - ⌊(9/10 - area / (w * h)) * 100⌋ - 25) (by push_cast; ring)]
    norm_num
  · rw [clamp_round_int _ (100 - 10 - 25) (by push_cast; ring)]
    norm_num
  · rw [clamp_round_int _ (100 - 25) (by push_cast; ring)]
    norm_num
  · rw [max_eq_right (hfl hs2),
      clamp_round_int _ (100 - 10 - ⌊(9/10 - area / (w * h)) * 100⌋) (by push_cast; ring)]
    norm_num
  · rw [max_eq_right (hfl hs2),
      clamp_round_int _ (100 - ⌊(9/10 - area / (w * h)) * 100⌋) (by push_cast; ring)]
    norm_num
  · rw [clamp_round_int _ (100 - 10) (by push_cast; ring)]
    norm_num
  · rw [clamp_round_int _ 100 (by push_cast; ring)]
    norm_num

/-- Witness for C3: a 5-vertex polygon with solidity 1/2 and aspect 1. -/
theorem computeConfidence_formula_witness :
    computeConfidence 5 50 10 10 = 50 := by
  have h := computeConfidence_formula 5 50 10 10 (by norm_num) (by norm_num) (by norm_num)
  rw [h]
  norm_num

/-! ### C9 — orientation corrector decision and fallback -/

/-- **C9** (confirmed): the orientation corrector rotates the source 90°
clockwise iff `ratio > 1.5`, where `ratio = horizontalEdges/verticalEdges`
and `ratio` is taken to be 1 when `verticalEdges = 0` (so it then never
rotates); any exception during edge analysis yields the original image
unchanged rather than propagating. -/
theorem autoRotateImage_spec :
    (∀ (Img : Type) (rotate90CW : Img → Img) (src : Img) (hEdges vEdges : ℕ),
      autoRotateImage rotate90CW (.ok (hEdges, vEdges)) src =
        if (3/2 : ℚ) < (if 0 < vEdges then (hEdges : ℚ) / (vEdges : ℚ) else 1) then
          rotate90CW src
        else src) ∧
    (∀ (Img : Type) (rotate90CW : Img → Img) (src : Img) (hEdges : ℕ),
      autoRotateImage rotate90CW (.ok (hEdges, 0)) src = src) ∧
    (∀ (Img : Type) (rotate90CW : Img → Img) (src : Img) (msg : String),
      autoRotateImage rotate90CW (.error msg) src = src) := by
  refine ⟨?_, ?_, ?_⟩
  · intro Img rotate90CW src hEdges vEdges
    simp only [autoRotateImage, shouldRotate, decide_eq_true_eq]
  · intro Img rotate90CW src hEdges
    simp only [autoRotateImage, shouldRotate, decide_eq_true_eq]
    norm_num
  · intro Img rotate90CW src msg
    rfl

/-- Witness for C9 with a concrete "image" (`ℕ` with `Nat.succ` as the
rotation): horizontal/vertical ratio 3 rotates, an exception does not. -/
theorem autoRotateImage_spec_witness :
    autoRotateImage Nat.succ (Except.ok (3, 1)) 0 = 1 ∧
    autoRotateImage Nat.succ (Except.ok (1, 0)) 0 = 0 ∧
    autoRotateImage Nat.succ (Except.error "canny failed") 0 = 0 := by
  have h := autoRotateImage_spec
  refine ⟨?_, h.2.1 ℕ Nat.succ 0 1, h.2.2 ℕ Nat.succ 0 "canny failed"⟩
  rw [h.1 ℕ Nat.succ 0 3 1]
  norm_num

/-! ### Facts about the NMS loops -/

theorem mem_addId {removed : List ℕ} {i j : ℕ} :
    i ∈ addId removed j ↔ i = j ∨ i ∈ removed := by
  unfold addId
  split_ifs with h
  · constructor
    · exact Or.inr
    · rintro (rfl | hi)
      · exact h
      · exact hi
  · exact List.mem_cons

theorem subset_addId (removed : List ℕ) (j : ℕ) : removed ⊆ addId removed j :=
  fun _ hi => mem_addId.2 (Or.inr hi)

theorem innerMark_subset (thr : ℚ) (doc : ScannedDoc) :
    ∀ (others : List ScannedDoc) (removed : List ℕ),
      removed ⊆ innerMark thr doc others removed
  | [], _ => fun _ h => h
  | other :: rest, removed => by
    simp only [innerMark]
    split_ifs with h1 h2
    · exact innerMark_subset thr doc rest removed
    · exact List.Subset.trans (subset_addId removed other.id)
        (innerMark_subset thr doc rest _)
    · exact innerMark_subset thr doc rest removed

theorem innerMark_marks (thr : ℚ) (doc : ScannedDoc) :
    ∀ (others : List ScannedDoc) (removed : List ℕ) (other : ScannedDoc),
      other ∈ others → other.id ≠ doc.id →
      thr ≤ calculateIOU doc.corners other.corners →
      other.id ∈ innerMark thr doc others removed := by
  intro others
  induction others with
  | nil => intro removed other h; cases h
  | cons o rest ih =>
    intro removed other hmem hne hiou
    simp only [innerMark]
    rcases List.mem_cons.1 hmem with rfl | hmem2
    · by_cases h1 : other.id = doc.id ∨ other.id ∈ removed
      · rw [if_pos h1]
        rcases h1 with h1 | h1
        · exact absurd h1 hne
        · exact innerMark_subset thr doc rest removed h1
      · rw [if_neg h1, if_pos hiou]
        exact innerMark_subset thr doc rest _ (mem_addId.2 (Or.inl rfl))
    · split_ifs with h1 h2
      · exact ih removed other hmem2 hne hiou
      · exact ih _ other hmem2 hne hiou
      · exact ih removed other hmem2 hne hiou

theorem nmsGo_subset (thr : ℚ) (sorted : List ScannedDoc) :
    ∀ (iter : List ScannedDoc) (removed : List ℕ) (d : ScannedDoc),
      d ∈ nmsGo thr sorted iter removed → d ∈ iter := by
  intro iter
  induction iter with
  | nil => intro removed d h; simp [nmsGo] at h
  | cons doc rest ih =>
    intro removed d h
    simp only [nmsGo] at h
    split_ifs at h with h1
    · exact List.mem_cons_of_mem doc (ih removed d h)
    · rcases List.mem_cons.1 h with rfl | h2
      · exact List.mem_cons_self _ rest
      · exact List.mem_cons_of_mem _ (ih _ d h2)

theorem nmsGo_id_not_removed (thr : ℚ) (sorted : List ScannedDoc) :
    ∀ (iter : List ScannedDoc) (removed : List ℕ) (d : ScannedDoc),
      d ∈ nmsGo thr sorted iter removed → d.id ∉ removed := by
  intro iter
  induction iter with
  | nil => intro removed d h; simp [nmsGo] at h
  | cons doc rest ih =>
    intro removed d h
    simp only [nmsGo] at h
    split_ifs at h with h1
    · exact ih removed d h
    · rcases List.mem_cons.1 h with rfl | h2
      · exact h1
      · intro hmem
        exact ih _ d h2 (innerMark_subset thr doc sorted removed hmem)

theorem nmsGo_no_overlap (thr : ℚ) (sorted : List ScannedDoc) :
    ∀ (iter : List ScannedDoc) (removed : List ℕ),
      (∀ d ∈ iter, d ∈ sorted) →
      ∀ d1 ∈ nmsGo thr sorted iter removed, ∀ d2 ∈ nmsGo thr sorted iter removed,
        d1.id ≠ d2.id → calculateIOU d1.corners d2.corners < thr := by
  intro iter
  induction iter with
  | nil => intro removed hsub d1 h1; simp [nmsGo] at h1
  | cons doc rest ih =>
    intro removed hsub d1 h1 d2 h2 hne
    have hsub2 : ∀ d ∈ rest, d ∈ sorted :=
      fun d hd => hsub d (List.mem_cons_of_mem doc hd)
    simp only [nmsGo] at h1 h2
    split_ifs at h1 h2 with hid
    · exact ih removed hsub2 d1 h1 d2 h2 hne
    · rcases List.mem_cons.1 h1 with rfl | h1b
      · rcases List.mem_cons.1 h2 with rfl | h2b
        · exact absurd rfl hne
        · by_contra hcon
          push_neg at hcon
          have hd2s : d2 ∈ sorted := hsub2 d2 (nmsGo_subset thr sorted rest _ d2 h2b)
          have hmark : d2.id ∈ innerMark thr d1 sorted removed :=
            innerMark_marks thr d1 sorted removed d2 hd2s hne.symm hcon
          exact nmsGo_id_not_removed thr sorted rest _ d2 h2b hmark
      · rcases List.mem_cons.1 h2 with rfl | h2b
        · by_contra hcon
          push_neg at hcon
          have hd1s : d1 ∈ sorted := hsub2 d1 (nmsGo_subset thr sorted rest _ d1 h1b)
          have hcon2 : thr ≤ calculateIOU d2.corners d1.corners := by
            rwa [calculateIOU_comm] at hcon
          have hmark : d1.id ∈ innerMark thr d2 sorted removed :=
            innerMark_marks thr d2 sorted removed d1 hd1s hne hcon2
          exact nmsGo_id_not_removed thr sorted rest _ d1 h1b hmark
        · exact ih _ hsub2 d1 h1b d2 h2b hne

theorem sorted_head_max (docs : List ScannedDoc) (_hne : docs ≠ []) :
    ∀ d ∈ docs, d.confidence ≤ (List.insertionSort confDescR docs).headI.confidence := by
  intro d hd
  have hsorted : List.Sorted confDescR (List.insertionSort confDescR docs) :=
    List.sorted_insertionSort confDescR docs
  have hdmem : d ∈ List.insertionSort confDescR docs :=
    (List.mem_insertionSort confDescR).2 hd
  cases hS : List.insertionSort confDescR docs with
  | nil => rw [hS] at hdmem; cases hdmem
  | cons s0 tl =>
    rw [hS] at hdmem hsorted
    rcases List.mem_cons.1 hdmem with rfl | htl
    · exact le_refl _
    · exact List.rel_of_sorted_cons hsorted d htl

theorem mem_of_mem_filterDuplicates {docs : List ScannedDoc} {thr : ℚ}
    {d : ScannedDoc} (hd : d ∈ filterDuplicatesByIOU docs thr) : d ∈ docs := by
  simp only [filterDuplicatesByIOU] at hd
  split_ifs at hd with hlen
  · exact hd
  · exact (List.mem_insertionSort confDescR).1
      (nmsGo_subset thr _ _ _ d hd)

theorem filterDuplicates_head (docs : List ScannedDoc) (thr : ℚ) (hne : docs ≠ []) :
    filterDuplicatesByIOU docs thr ≠ [] ∧
    ∀ d ∈ docs, d.confidence ≤ (filterDuplicatesByIOU docs thr).headI.confidence := by
  simp only [filterDuplicatesByIOU]
  split_ifs with hlen
  · cases docs with
    | nil => exact absurd rfl hne
    | cons a rest =>
      cases rest with
      | nil =>
        refine ⟨by simp, ?_⟩
        intro d hd
        rcases List.mem_cons.1 hd with rfl | h
        · exact le_refl _
        · cases h
      | cons b r2 => simp at hlen
  · cases hS : List.insertionSort confDescR docs with
    | nil =>
      exfalso
      cases docs with
      | nil => exact hne rfl
      | cons a l =>
        have ha : a ∈ List.insertionSort confDescR (a :: l) :=
          (List.mem_insertionSort confDescR).2 (List.mem_cons_self a l)
        rw [hS] at ha
        cases ha
    | cons s0 tl =>
      have hstep : nmsGo thr (s0 :: tl) (s0 :: tl) [] =
          s0 :: nmsGo thr (s0 :: tl) tl (innerMark thr s0 (s0 :: tl) []) := by
        simp only [nmsGo]
        rw [if_neg (List.not_mem_nil s0.id)]
      rw [hstep]
      refine ⟨by simp, ?_⟩
      intro d hd
      have hmax := sorted_head_max docs hne d hd
      rw [hS] at hmax
      simpa using hmax

theorem mem_of_mem_finalizeDocs {found : List ScannedDoc} {d : ScannedDoc}
    (hd : d ∈ finalizeDocs found) : d ∈ found := by
  simp only [finalizeDocs, sortFinalDocs] at hd
  exact mem_of_mem_filterDuplicates ((List.mem_insertionSort docOrder).1 hd)

/-! ### C2 — NMS keeps a maximal candidate, kept pairs do not overlap -/

/-- **C2** counterexample: the inner NMS loop compares documents by `id`
(`other.id === doc.id` / the `removed` id set), so two candidates sharing
an id are never compared: on two identical squares with id 0 and
confidences 50 and 40 both survive, yet their IOU is 1 ≥ 0.5. -/
theorem filterDuplicates_nms_counterexample :
    dupDocA ∈ filterDuplicatesByIOU [dupDocA, dupDocB] (1/2) ∧
    dupDocB ∈ filterDuplicatesByIOU [dupDocA, dupDocB] (1/2) ∧
    dupDocA ≠ dupDocB ∧
    ¬ calculateIOU dupDocA.corners dupDocB.corners < 1/2 := by
  have hout : filterDuplicatesByIOU [dupDocA, dupDocB] (1/2) = [dupDocA, dupDocB] := by
    norm_num [filterDuplicatesByIOU, List.insertionSort, List.orderedInsert, confDescR,
      dupDocA, dupDocB, nmsGo, innerMark]
  have hiou : calculateIOU dupDocA.corners dupDocB.corners = 1 := by
    norm_num [dupDocA, dupDocB, sq10, calculateIOU, unionAreaOf, interAreaOf,
      interWidthOf, interHeightOf, bareaOf, bboxOf, minList, maxList, min_def, max_def]
  refine ⟨by rw [hout]; simp, by rw [hout]; simp, ?_, by rw [hiou]; norm_num⟩
  simp [dupDocA, dupDocB]

/-- **C2** (amended): for every nonempty list of candidates with
pairwise-distinct ids (as `scanDocument` produces), `filterDuplicatesByIOU`
with threshold 0.5 keeps a candidate of globally maximal confidence (its
first output), and every two distinct kept candidates have IOU strictly
below the threshold. -/
theorem filterDuplicates_nms (docs : List ScannedDoc)
    (hne : docs ≠ []) (hids : (List.map (fun d => d.id) docs).Nodup) :
    filterDuplicatesByIOU docs (1/2) ≠ [] ∧
    (∀ d ∈ docs, d.confidence ≤ (filterDuplicatesByIOU docs (1/2)).headI.confidence) ∧
    (∀ d1 ∈ filterDuplicatesByIOU docs (1/2), ∀ d2 ∈ filterDuplicatesByIOU docs (1/2),
      d1 ≠ d2 → calculateIOU d1.corners d2.corners < 1/2) := by
  refine ⟨(filterDuplicates_head docs (1/2) hne).1,
    (filterDuplicates_head docs (1/2) hne).2, ?_⟩
  intro d1 h1 d2 h2 hne12
  have hmem1 : d1 ∈ docs := mem_of_mem_filterDuplicates h1
  have hmem2 : d2 ∈ docs := mem_of_mem_filterDuplicates h2
  have hidne : d1.id ≠ d2.id := by
    intro he
    exact hne12 (List.inj_on_of_nodup_map hids hmem1 hmem2 he)
  simp only [filterDuplicatesByIOU] at h1 h2
  split_ifs at h1 h2 with hlen
  · cases docs with
    | nil => cases h1
    | cons a rest =>
      cases rest with
      | nil =>
        rcases List.mem_cons.1 h1 with rfl | hfalse
        · rcases List.mem_cons.1 h2 with heq | hfalse
          · exact absurd heq.symm hne12
          · cases hfalse
        · cases hfalse
      | cons b r2 => simp at hlen
  · exact nmsGo_no_overlap (1/2) _ _ [] (fun d hd => hd) d1 h1 d2 h2 hidne

/-- Witness for C2 on two separated detections with distinct ids. -/
theorem filterDuplicates_nms_witness :
    filterDuplicatesByIOU [demoDocA, demoDocB] (1/2) ≠ [] ∧
    demoDocB.confidence ≤
      (filterDuplicatesByIOU [demoDocA, demoDocB] (1/2)).headI.confidence := by
  have h := filterDuplicates_nms [demoDocA, demoDocB] (by simp)
    (by simp [demoDocA, demoDocB])
  exact ⟨h.1, h.2.1 demoDocB (by simp)⟩

/-! ### C6 — final ordering -/

/-- **C6** (confirmed): the final list of documents is sorted by
confidence descending, and any two documents with equal confidence appear
in ascending order of `topLeft.x + topLeft.y`. -/
theorem finalizeDocs_sorted (found : List ScannedDoc) :
    ((finalizeDocs found).Pairwise fun a b => b.confidence ≤ a.confidence) ∧
    ((finalizeDocs found).Pairwise fun a b =>
      a.confidence = b.confidence → cornerPos a ≤ cornerPos b) := by
  have h : List.Sorted docOrder (finalizeDocs found) :=
    List.sorted_insertionSort docOrder (filterDuplicatesByIOU found (1/2))
  constructor
  · refine h.imp ?_
    intro a b hab
    rcases hab with h1 | ⟨h1, _⟩
    · exact le_of_lt h1
    · exact le_of_eq h1.symm
  · refine h.imp ?_
    intro a b hab heq
    rcases hab with h1 | ⟨_, h2⟩
    · rw [heq] at h1
      exact absurd h1 (lt_irrefl _)
    · exact h2

/-- Witness for C6: the ordering facts at a concrete two-document list. -/
theorem finalizeDocs_sorted_witness :
    ((finalizeDocs [demoDocB, demoDocA]).Pairwise
      fun a b => b.confidence ≤ a.confidence) ∧
    ((finalizeDocs [demoDocB, demoDocA]).Pairwise
      fun a b => a.confidence = b.confidence → cornerPos a ≤ cornerPos b) :=
  finalizeDocs_sorted [demoDocB, demoDocA]

/-! ### C4 — confidence range and threshold filtering -/

/-- **C4** (confirmed): every candidate confidence lies in `[0, 100]`;
candidates with confidence ≤ 40 fail the retention test (dropped, not an
error); the later stages (duplicate suppression, sorting) only permute or
drop — they never introduce a document — so every final document keeps
confidence strictly above 40. -/
theorem confidence_invariants :
    (∀ (nV : ℕ) (area w h : ℚ),
      0 ≤ computeConfidence nV area w h ∧ computeConfidence nV area w h ≤ 100) ∧
    (∀ conf : ℚ, conf ≤ 40 → retainCandidate conf = false) ∧
    (∀ (found : List ScannedDoc) (d : ScannedDoc), d ∈ finalizeDocs found → d ∈ found) ∧
    (∀ found : List ScannedDoc, (∀ d ∈ found, 40 < d.confidence) →
      ∀ d ∈ finalizeDocs found, 40 < d.confidence) := by
  refine ⟨?_, ?_, ?_, ?_⟩
  · intro nV area w h
    simp only [computeConfidence]
    exact ⟨le_max_left 0 _, max_le (by norm_num) (min_le_left _ _)⟩
  · intro conf h
    rw [retainCandidate]
    exact decide_eq_false (not_lt.2 h)
  · intro found d hd
    exact mem_of_mem_finalizeDocs hd
  · intro found hall d hd
    exact hall d (mem_of_mem_finalizeDocs hd)

/-- Witness for C4 at concrete inputs. -/
theorem confidence_invariants_witness :
    (0 ≤ computeConfidence 4 50 10 10 ∧ computeConfidence 4 50 10 10 ≤ 100) ∧
    retainCandidate 40 = false ∧
    demoDocA ∈ [demoDocA] ∧
    (40 : ℚ) < demoDocA.confidence := by
  have h := confidence_invariants
  have hmem : demoDocA ∈ finalizeDocs [demoDocA] := by
    simp [finalizeDocs, sortFinalDocs, filterDuplicatesByIOU,
      List.insertionSort, List.orderedInsert]
  exact ⟨h.1 4 50 10 10, h.2.1 40 (by norm_num),
    h.2.2.1 [demoDocA] demoDocA hmem,
    h.2.2.2 [demoDocA] (fun d hd => by
      rcases List.mem_cons.1 hd with rfl | hf
      · norm_num [demoDocA]
      · cases hf) demoDocA hmem⟩

end Scanner
